import Mathlib

/-!
Verification of the calibration-image dot-grid rasterizer
(src/create_calibration_image.py) against its specification.

The rasterizer builds a `height × width` grayscale canvas of 8-bit samples
(initialized to 0), then for every grid point `(x, y)` with `x` ranging over
`range(0, width, dot_spacing)` and `y` over `range(0, height, dot_spacing)`
stamps a filled disk of radius `dot_radius`: every offset `(dx, dy)` in the
square `[-radius, radius]^2` with `dx*dx + dy*dy <= radius*radius` whose
target coordinate lies inside the canvas is set to 255.

The embedding models the canvas as a list of rows (each row a list of `Nat`
samples), Python integers as `Int` (note that Lean `Int` division `/` is
floor division, exactly Python `//`), and the two failure points of the
script as an `Except` error result:
  * `np.zeros((height, width))` raises `ValueError` when `height < 0` or
    `width < 0`;
  * `range(0, height, dot_spacing)` raises `ValueError` when
    `dot_spacing = 0`.
Saving the canvas through PIL is the external encoding collaborator and is
out of scope; the embedding returns the finished canvas instead.
-/

/-- Errors raised by the Python runtime during rasterization. -/
inductive PyErr where
  | valueError : String → PyErr
deriving DecidableEq

instance {ε α : Type _} [DecidableEq ε] [DecidableEq α] :
    DecidableEq (Except ε α) := fun a b =>
  match a, b with
  | Except.error e1, Except.error e2 =>
    if h : e1 = e2 then isTrue (congrArg Except.error h)
    else isFalse (fun hc => h (Except.error.inj hc))
  | Except.error _, Except.ok _ => isFalse (fun hc => Except.noConfusion hc)
  | Except.ok _, Except.error _ => isFalse (fun hc => Except.noConfusion hc)
  | Except.ok a1, Except.ok a2 =>
    if h : a1 = a2 then isTrue (congrArg Except.ok h)
    else isFalse (fun hc => h (Except.ok.inj hc))

/-- The in-memory grayscale canvas: a list of rows, each row a list of
8-bit intensity samples. -/
abbrev Canvas := List (List Nat)

/-- Number of elements of Python `range(start, stop, step)` for `step ≠ 0`
(Lean `Int` division is floor division, as in Python). -/
def pyRangeLen (start stop step : Int) : Nat :=
  if 0 < step then ((stop - start + step - 1) / step).toNat
  else if step < 0 then ((stop - start + step + 1) / step).toNat
  else 0

/-- The list of values of Python `range(start, stop, step)` for `step ≠ 0`. -/
def pyRange (start stop step : Int) : List Int :=
  (List.range (pyRangeLen start stop step)).map
    (fun i : Nat => start + step * (i : Int))

/-- `np.zeros((height, width), dtype=np.uint8)`: the all-black canvas. -/
def zerosCanvas (width height : Int) : Canvas :=
  List.replicate height.toNat (List.replicate width.toNat 0)

/-- `image[yy, xx] = 255`: set one sample of the canvas to white.  The
rasterizer only performs this after its own bounds check, so the indices
are in range whenever it is called from the drawing loop. -/
def setPixel (img : Canvas) (yy xx : Int) : Canvas :=
  img.set yy.toNat ((img.getD yy.toNat []).set xx.toNat 255)

/-- The body of the innermost loop for one `(y, x, dy, dx)` iteration:
if `dx*dx + dy*dy <= radius*radius` and the target coordinate is inside
the canvas, write 255 there, else leave the canvas unchanged. -/
def stampStep (width height radius : Int) (img : Canvas)
    (q : Int × Int × Int × Int) : Canvas :=
  match q with
  | (y, x, dy, dx) =>
    if dx * dx + dy * dy ≤ radius * radius then
      if 0 ≤ y + dy ∧ y + dy < height ∧ 0 ≤ x + dx ∧ x + dx < width then
        setPixel img (y + dy) (x + dx)
      else img
    else img

/-- The four nested drawing loops of the source, flattened into the list of
their `(y, x, dy, dx)` iterations in iteration order. -/
def stampQuads (width height spacing radius : Int) :
    List (Int × Int × Int × Int) :=
  (pyRange 0 height spacing).flatMap (fun y =>
    (pyRange 0 width spacing).flatMap (fun x =>
      (pyRange (-radius) (radius + 1) 1).flatMap (fun dy =>
        (pyRange (-radius) (radius + 1) 1).map (fun dx => (y, x, dy, dx)))))

/-- The drawing phase of `create_calibration_image`: the four nested loops,
written exactly as in the source as iterated folds over the Python ranges. -/
def drawGrid (width height spacing radius : Int) : Canvas :=
  (pyRange 0 height spacing).foldl (fun img y =>
    (pyRange 0 width spacing).foldl (fun img x =>
      (pyRange (-radius) (radius + 1) 1).foldl (fun img dy =>
        (pyRange (-radius) (radius + 1) 1).foldl (fun img dx =>
          stampStep width height radius img (y, x, dy, dx)) img) img) img)
    (zerosCanvas width height)

/-- The rasterizer `create_calibration_image(width, height, dot_spacing,
dot_radius)` of the source, up to (and excluding) the external PIL save:
allocate the all-black canvas, then draw the dot grid.  `ValueError` is
raised by `np.zeros` for negative dimensions and by `range` for a zero
step, in that order, before any sample is written. -/
def create_calibration_image (width height dot_spacing dot_radius : Int) :
    Except PyErr Canvas :=
  if width < 0 ∨ height < 0 then
    Except.error (PyErr.valueError "negative dimensions are not allowed")
  else if dot_spacing = 0 then
    Except.error (PyErr.valueError "range arg 3 must not be zero")
  else
    Except.ok (drawGrid width height dot_spacing dot_radius)

/-- Observe the sample of a canvas at integer coordinates `(px, py)`:
row `py`, column `px`; coordinates outside the canvas read as 0. -/
def sample (img : Canvas) (px py : Int) : Nat :=
  if 0 ≤ px ∧ 0 ≤ py then (img.getD py.toNat []).getD px.toNat 0 else 0

/-- The coordinate `(xx, yy)` written by one `(y, x, dy, dx)` loop
iteration, when its guards pass. -/
def writeOfQuad (width height radius : Int) (q : Int × Int × Int × Int) :
    Option (Int × Int) :=
  match q with
  | (y, x, dy, dx) =>
    if dx * dx + dy * dy ≤ radius * radius ∧
        0 ≤ y + dy ∧ y + dy < height ∧ 0 ≤ x + dx ∧ x + dx < width then
      some (x + dx, y + dy)
    else none

/-- The coordinates `(xx, yy)` actually written (in order) by the drawing
loops: the in-bounds disk samples of every grid dot. -/
def writesOf (width height radius : Int) (quads : List (Int × Int × Int × Int)) :
    List (Int × Int) :=
  quads.filterMap (writeOfQuad width height radius)

/-- All sample coordinates written during `drawGrid width height spacing radius`. -/
def writeList (width height spacing radius : Int) : List (Int × Int) :=
  writesOf width height radius (stampQuads width height spacing radius)

/-- Total number of samples of a canvas. -/
def numSamples (img : Canvas) : Nat := (img.map List.length).sum

/-- Number of white (255) samples of a canvas. -/
def countWhite (img : Canvas) : Nat :=
  (img.map (fun row => row.countP (fun v => v == 255))).sum

/-- Every sample of the canvas is 0 or 255. -/
def isBinary (img : Canvas) : Bool :=
  img.all (fun row => row.all (fun v => v == 0 || v == 255))

/-- Every sample of the canvas is 0. -/
def isAllZero (img : Canvas) : Bool :=
  img.all (fun row => row.all (fun v => v == 0))

/-- An explicit canvas of shape `height.toNat × width.toNat` whose white
samples are selected by a Boolean predicate on (column, row). -/
def canvasOfB (width height : Int) (f : Nat → Nat → Bool) : Canvas :=
  (List.range height.toNat).map (fun y =>
    (List.range width.toNat).map (fun x => if f x y then 255 else 0))

/-- The expected output of the concrete scenario
`rasterize(width=30, height=30, spacing=100, radius=1)`: a single dot at
the origin, clipped to the canvas. -/
def expected30 : Canvas :=
  (List.range 30).map (fun y =>
    (List.range 30).map (fun x => if x * x + y * y ≤ 1 then 255 else 0))

/-- The grid points of the dot pattern, in iteration order: the outer two
loops of the source. -/
def dotList (width height spacing : Int) : List (Int × Int) :=
  (pyRange 0 height spacing).flatMap (fun y =>
    (pyRange 0 width spacing).map (fun x => (y, x)))

/-- Stamp a single dot centered at grid point `d = (y, x)`: the inner two
loops of the source for one grid point. -/
def stampDot (width height radius : Int) (img : Canvas) (d : Int × Int) :
    Canvas :=
  (pyRange (-radius) (radius + 1) 1).foldl (fun img dy =>
    (pyRange (-radius) (radius + 1) 1).foldl (fun img dx =>
      stampStep width height radius img (d.1, d.2, dy, dx)) img) img

/-- The `(y, x, dy, dx)` iterations of the two inner loops for a single
grid point `d = (y, x)`. -/
def dotQuads (radius : Int) (d : Int × Int) :
    List (Int × Int × Int × Int) :=
  (pyRange (-radius) (radius + 1) 1).flatMap (fun dy =>
    (pyRange (-radius) (radius + 1) 1).map (fun dx => (d.1, d.2, dy, dx)))

/-- The predicate of the specification: `(px, py)` lies on some dot of the
grid, i.e. there is a grid center `(cx, cy)` (each coordinate a multiple of
`spacing`, inside the canvas) within squared distance `radius * radius`. -/
def onSomeDot (width height spacing radius px py : Int) : Prop :=
  ∃ cx cy : Int, spacing ∣ cx ∧ 0 ≤ cx ∧ cx < width ∧
    spacing ∣ cy ∧ 0 ≤ cy ∧ cy < height ∧
    (px - cx) * (px - cx) + (py - cy) * (py - cy) ≤ radius * radius

/-! ## Python `range` membership -/

theorem mem_pyRange {start stop step a : Int} (hstep : 0 < step) :
    a ∈ pyRange start stop step ↔
      step ∣ (a - start) ∧ start ≤ a ∧ a < stop := by
  unfold pyRange pyRangeLen
  rw [if_pos hstep]
  simp only [List.mem_map, List.mem_range]
  constructor
  · rintro ⟨i, hi, rfl⟩
    have hiq : ((i : Nat) : Int) < (stop - start + step - 1) / step :=
      Int.lt_toNat.mp hi
    have h2 : (((i : Nat) : Int) + 1) * step ≤ stop - start + step - 1 :=
      (Int.le_ediv_iff_mul_le hstep).mp (Int.add_one_le_iff.mpr hiq)
    have h3 : (((i : Nat) : Int) + 1) * step = step * (i : Nat) + step := by
      ring
    have h4 : (0 : Int) ≤ step * (i : Nat) :=
      mul_nonneg hstep.le (Int.natCast_nonneg _)
    exact ⟨⟨(i : Int), by ring⟩, by linarith, by linarith⟩
  · rintro ⟨⟨k, hk⟩, hle, hlt⟩
    have hk0 : 0 ≤ k := by
      by_contra hneg
      push_neg at hneg
      have h5 : step * k ≤ step * (-1) :=
        mul_le_mul_of_nonneg_left (by omega) hstep.le
      linarith
    have h2 : (k + 1) * step ≤ stop - start + step - 1 := by nlinarith
    have h3 : k < (stop - start + step - 1) / step :=
      Int.add_one_le_iff.mp ((Int.le_ediv_iff_mul_le hstep).mpr h2)
    refine ⟨k.toNat, ?_, ?_⟩
    · exact Int.lt_toNat.mpr (by rwa [Int.toNat_of_nonneg hk0])
    · rw [Int.toNat_of_nonneg hk0]
      linarith

theorem mem_pyRange_radius {r a : Int} :
    a ∈ pyRange (-r) (r + 1) 1 ↔ -r ≤ a ∧ a ≤ r := by
  rw [mem_pyRange Int.one_pos]
  constructor
  · rintro ⟨-, h1, h2⟩; exact ⟨h1, by omega⟩
  · rintro ⟨h1, h2⟩; exact ⟨one_dvd _, h1, by omega⟩

/-! ## Flattening the nested loops -/

theorem foldl_flatMap {α β γ : Type _} (f : γ → β → γ) (g : α → List β)
    (l : List α) (init : γ) :
    List.foldl f init (l.flatMap g)
      = List.foldl (fun c a => List.foldl f c (g a)) init l := by
  induction l generalizing init with
  | nil => rfl
  | cons a t ih => simp only [List.flatMap_cons, List.foldl_append, ih,
      List.foldl_cons]

theorem drawGrid_eq_foldl_quads (w h s r : Int) :
    drawGrid w h s r
      = List.foldl (stampStep w h r) (zerosCanvas w h) (stampQuads w h s r) := by
  unfold drawGrid stampQuads
  simp only [foldl_flatMap, List.foldl_map]


theorem foldl_stampStep_eq_writes (w h r : Int)
    (quads : List (Int × Int × Int × Int)) (img : Canvas) :
    List.foldl (stampStep w h r) img quads
      = List.foldl (fun im p => setPixel im p.2 p.1) img
          (writesOf w h r quads) := by
  induction quads generalizing img with
  | nil => rfl
  | cons q t ih =>
    obtain ⟨y, x, dy, dx⟩ := q
    by_cases h1 : dx * dx + dy * dy ≤ r * r
    · by_cases h2 : 0 ≤ y + dy ∧ y + dy < h ∧ 0 ≤ x + dx ∧ x + dx < w
      · have hwq : writeOfQuad w h r (y, x, dy, dx) = some (x + dx, y + dy) := by
          simp only [writeOfQuad]
          rw [if_pos ⟨h1, h2⟩]
        have hss : ∀ im, stampStep w h r im (y, x, dy, dx)
            = setPixel im (y + dy) (x + dx) := by
          intro im
          simp only [stampStep]
          rw [if_pos h1, if_pos h2]
        simp only [writesOf, List.filterMap_cons, hwq, List.foldl_cons, hss]
        exact ih _
      · have hwq : writeOfQuad w h r (y, x, dy, dx) = none := by
          simp only [writeOfQuad]
          rw [if_neg (fun hc => h2 hc.2)]
        have hss : ∀ im, stampStep w h r im (y, x, dy, dx) = im := by
          intro im
          simp only [stampStep]
          rw [if_pos h1, if_neg h2]
        simp only [writesOf, List.filterMap_cons, hwq, List.foldl_cons, hss]
        exact ih img
    · have hwq : writeOfQuad w h r (y, x, dy, dx) = none := by
        simp only [writeOfQuad]
        rw [if_neg (fun hc => h1 hc.1)]
      have hss : ∀ im, stampStep w h r im (y, x, dy, dx) = im := by
        intro im
        simp only [stampStep]
        rw [if_neg h1]
      simp only [writesOf, List.filterMap_cons, hwq, List.foldl_cons, hss]
      exact ih img

theorem writesOf_bounds (w h r : Int) (quads : List (Int × Int × Int × Int))
    (p : Int × Int) (hp : p ∈ writesOf w h r quads) :
    0 ≤ p.1 ∧ p.1 < w ∧ 0 ≤ p.2 ∧ p.2 < h := by
  unfold writesOf at hp
  rw [List.mem_filterMap] at hp
  obtain ⟨q, -, hq⟩ := hp
  obtain ⟨y, x, dy, dx⟩ := q
  simp only [writeOfQuad] at hq
  by_cases hc : dx * dx + dy * dy ≤ r * r ∧
      0 ≤ y + dy ∧ y + dy < h ∧ 0 ≤ x + dx ∧ x + dx < w
  · rw [if_pos hc] at hq
    obtain rfl : (x + dx, y + dy) = p := Option.some.inj hq
    exact ⟨hc.2.2.2.1, hc.2.2.2.2, hc.2.1, hc.2.2.1⟩
  · rw [if_neg hc] at hq
    exact Option.noConfusion hq

theorem writeList_bounds (w h s r : Int) (p : Int × Int)
    (hp : p ∈ writeList w h s r) :
    0 ≤ p.1 ∧ p.1 < w ∧ 0 ≤ p.2 ∧ p.2 < h :=
  writesOf_bounds w h r _ p hp

/-! ## Structural characterization of the drawn canvas -/

theorem canvasOfB_length (w h : Int) (f : Nat → Nat → Bool) :
    (canvasOfB w h f).length = h.toNat := by
  simp [canvasOfB]

theorem canvasOfB_getElem (w h : Int) (f : Nat → Nat → Bool) (n : Nat)
    (hn : n < (canvasOfB w h f).length) :
    (canvasOfB w h f)[n]
      = (List.range w.toNat).map (fun x => if f x n then 255 else 0) := by
  unfold canvasOfB at hn ⊢
  rw [List.getElem_map, List.getElem_range]

theorem canvasOfB_getD_row (w h : Int) (f : Nat → Nat → Bool) (n : Nat)
    (hn : n < h.toNat) :
    (canvasOfB w h f).getD n []
      = (List.range w.toNat).map (fun x => if f x n then 255 else 0) := by
  unfold canvasOfB
  rw [List.getD_eq_getElem?_getD, List.getElem?_map, List.getElem?_range hn]
  rfl

theorem zeros_eq_canvasOfB (w h : Int) :
    zerosCanvas w h = canvasOfB w h (fun _ _ => false) := by
  unfold zerosCanvas canvasOfB
  simp [List.map_const', List.length_range]

theorem setPixel_canvasOfB (w h : Int) (f : Nat → Nat → Bool) (xx yy : Int)
    (hx0 : 0 ≤ xx) (hxw : xx < w) (hy0 : 0 ≤ yy) (hyh : yy < h) :
    setPixel (canvasOfB w h f) yy xx
      = canvasOfB w h (fun x y =>
          if x = xx.toNat ∧ y = yy.toNat then true else f x y) := by
  have hyN : yy.toNat < h.toNat := by omega
  have hxN : xx.toNat < w.toNat := by omega
  unfold setPixel
  rw [canvasOfB_getD_row w h f yy.toNat hyN]
  apply List.ext_getElem
  · simp [canvasOfB, List.length_set]
  · intro n h₁ h₂
    have hnh : n < h.toNat := by
      simpa [canvasOfB] using h₂
    rw [List.getElem_set, canvasOfB_getElem w h _ n h₂]
    by_cases hn : yy.toNat = n
    · rw [if_pos hn]
      subst hn
      apply List.ext_getElem
      · simp
      · intro m m₁ m₂
        simp only [List.getElem_set, List.getElem_map, List.getElem_range]
        by_cases hm : m = xx.toNat
        · simp [hm]
        · simp [hm, Ne.symm hm]
    · rw [if_neg hn]
      have hf : n < (canvasOfB w h f).length := by
        simpa [canvasOfB] using hnh
      rw [canvasOfB_getElem w h f n hf]
      apply List.map_congr_left
      intro x hx
      simp [Ne.symm hn]

theorem foldl_setPixel_canvasOfB (w h : Int) (L : List (Int × Int))
    (hL : ∀ p ∈ L, 0 ≤ p.1 ∧ p.1 < w ∧ 0 ≤ p.2 ∧ p.2 < h)
    (f : Nat → Nat → Bool) :
    List.foldl (fun im p => setPixel im p.2 p.1) (canvasOfB w h f) L
      = canvasOfB w h
          (fun x y => f x y || decide (((x : Int), (y : Int)) ∈ L)) := by
  induction L generalizing f with
  | nil =>
    simp only [List.foldl_nil]
    congr 1
    funext x y
    simp
  | cons p t ih =>
    obtain ⟨p1, p2⟩ := p
    obtain ⟨hp1, hp2, hp3, hp4⟩ := hL (p1, p2) (List.mem_cons_self _ t)
    simp only [List.foldl_cons]
    rw [setPixel_canvasOfB w h f p1 p2 hp1 hp2 hp3 hp4,
      ih (fun q hq => hL q (List.mem_cons_of_mem _ hq))]
    congr 1
    funext x y
    by_cases hxy : x = p1.toNat ∧ y = p2.toNat
    · obtain ⟨hx1, hy1⟩ := hxy
      subst hx1
      subst hy1
      have hpx : ((p1.toNat : Int), (p2.toNat : Int)) = (p1, p2) := by
        rw [Prod.mk.injEq]
        exact ⟨Int.toNat_of_nonneg hp1, Int.toNat_of_nonneg hp3⟩
      have hmem : ((p1.toNat : Int), (p2.toNat : Int)) ∈ (p1, p2) :: t := by
        rw [hpx]
        exact List.mem_cons_self _ _
      simp [hmem]
      exact Or.inr (Or.inl ⟨hp1, hp3⟩)
    · have hpx : ((x : Int), (y : Int)) ≠ (p1, p2) := by
        intro hEq
        rw [Prod.mk.injEq] at hEq
        exact hxy ⟨by omega, by omega⟩
      simp [hxy, hpx, List.mem_cons]

/-- The drawn canvas is exactly the canvas whose white samples are the
coordinates of the write trace. -/
theorem drawGrid_eq_canvasOfB (w h s r : Int) :
    drawGrid w h s r
      = canvasOfB w h
          (fun x y => decide (((x : Int), (y : Int)) ∈ writeList w h s r)) := by
  rw [drawGrid_eq_foldl_quads, foldl_stampStep_eq_writes, zeros_eq_canvasOfB,
    foldl_setPixel_canvasOfB w h _ (writesOf_bounds w h r (stampQuads w h s r))]
  congr 1

theorem sample_canvasOfB (w h : Int) (f : Nat → Nat → Bool) (px py : Int)
    (h1 : 0 ≤ px) (h2 : px < w) (h3 : 0 ≤ py) (h4 : py < h) :
    sample (canvasOfB w h f) px py
      = if f px.toNat py.toNat then 255 else 0 := by
  unfold sample
  rw [if_pos ⟨h1, h3⟩, canvasOfB_getD_row w h f py.toNat (by omega),
    List.getD_eq_getElem?_getD, List.getElem?_map,
    List.getElem?_range (by omega : px.toNat < w.toNat)]
  rfl

theorem numSamples_canvasOfB (w h : Int) (f : Nat → Nat → Bool) :
    numSamples (canvasOfB w h f) = w.toNat * h.toNat := by
  unfold numSamples canvasOfB
  rw [List.map_map]
  have hc : List.length ∘ (fun y => (List.range w.toNat).map
      (fun x => if f x y then 255 else 0)) = fun _ => w.toNat := by
    funext y
    simp
  rw [hc, List.map_const', List.length_range, List.sum_replicate,
    smul_eq_mul, Nat.mul_comm]

theorem isBinary_canvasOfB (w h : Int) (f : Nat → Nat → Bool) :
    isBinary (canvasOfB w h f) = true := by
  unfold isBinary canvasOfB
  rw [List.all_eq_true]
  intro row hrow
  rw [List.mem_map] at hrow
  obtain ⟨y, -, rfl⟩ := hrow
  rw [List.all_eq_true]
  intro v hv
  rw [List.mem_map] at hv
  obtain ⟨x, -, rfl⟩ := hv
  by_cases hf : f x y <;> simp [hf]

theorem countWhite_canvasOfB (w h : Int) (f : Nat → Nat → Bool) :
    countWhite (canvasOfB w h f)
      = ((List.range h.toNat).map
          (fun y => (List.range w.toNat).countP (fun x => f x y))).sum := by
  unfold countWhite canvasOfB
  rw [List.map_map]
  apply congrArg List.sum
  apply List.map_congr_left
  intro y hy
  rw [Function.comp_apply, List.countP_map]
  apply List.countP_congr
  intro x hx
  by_cases hf : f x y <;> simp [hf]

/-- On inputs where no `ValueError` fires, the rasterizer returns the drawn
canvas. -/
theorem create_ok (w h s r : Int) (hw : 0 ≤ w) (hh : 0 ≤ h) (hs : s ≠ 0) :
    create_calibration_image w h s r = Except.ok (drawGrid w h s r) := by
  unfold create_calibration_image
  rw [if_neg (by omega), if_neg hs]

/-- A coordinate is written if and only if it is an in-canvas point of some
dot of the grid. -/
theorem mem_writeList_iff (w h s r px py : Int) (hs : 0 < s) (hr : 0 ≤ r)
    (h1 : 0 ≤ px) (h2 : px < w) (h3 : 0 ≤ py) (h4 : py < h) :
    (px, py) ∈ writeList w h s r ↔ onSomeDot w h s r px py := by
  unfold writeList writesOf onSomeDot
  rw [List.mem_filterMap]
  constructor
  · rintro ⟨q, hq, hwq⟩
    unfold stampQuads at hq
    simp only [List.mem_flatMap, List.mem_map] at hq
    obtain ⟨y, hy, x, hx, dy, hdy, dx, hdx, rfl⟩ := hq
    simp only [writeOfQuad] at hwq
    by_cases hc : dx * dx + dy * dy ≤ r * r ∧
        0 ≤ y + dy ∧ y + dy < h ∧ 0 ≤ x + dx ∧ x + dx < w
    · rw [if_pos hc] at hwq
      have heq := Option.some.inj hwq
      rw [Prod.mk.injEq] at heq
      obtain ⟨hex, hey⟩ := heq
      obtain ⟨hxdvd, hx0, hxw⟩ := (mem_pyRange hs).mp hx
      obtain ⟨hydvd, hy0, hyh⟩ := (mem_pyRange hs).mp hy
      rw [sub_zero] at hxdvd hydvd
      refine ⟨x, y, hxdvd, hx0, hxw, hydvd, hy0, hyh, ?_⟩
      have hdx2 : px - x = dx := by omega
      have hdy2 : py - y = dy := by omega
      rw [hdx2, hdy2]
      exact hc.1
    · rw [if_neg hc] at hwq
      exact Option.noConfusion hwq
  · rintro ⟨cx, cy, hcx, hcx0, hcxw, hcy, hcy0, hcyh, hdist⟩
    have hdx2 : (px - cx) * (px - cx) ≤ r * r := by
      nlinarith [mul_self_nonneg (py - cy)]
    have hdy2 : (py - cy) * (py - cy) ≤ r * r := by
      nlinarith [mul_self_nonneg (px - cx)]
    have hbx1 : -r ≤ px - cx := by nlinarith [hdx2, hr]
    have hbx2 : px - cx ≤ r := by nlinarith [hdx2, hr]
    have hby1 : -r ≤ py - cy := by nlinarith [hdy2, hr]
    have hby2 : py - cy ≤ r := by nlinarith [hdy2, hr]
    refine ⟨(cy, cx, py - cy, px - cx), ?_, ?_⟩
    · unfold stampQuads
      simp only [List.mem_flatMap, List.mem_map]
      refine ⟨cy, ?_, cx, ?_, py - cy, ?_, px - cx, ?_, rfl⟩
      · exact (mem_pyRange hs).mpr ⟨by simpa using hcy, hcy0, hcyh⟩
      · exact (mem_pyRange hs).mpr ⟨by simpa using hcx, hcx0, hcxw⟩
      · exact mem_pyRange_radius.mpr ⟨hby1, hby2⟩
      · exact mem_pyRange_radius.mpr ⟨hbx1, hbx2⟩
    · simp only [writeOfQuad]
      rw [if_pos ⟨hdist, by omega, by omega, by omega, by omega⟩]
      apply congrArg
      rw [Prod.mk.injEq]
      exact ⟨by omega, by omega⟩

/-- Sample-level reading of the drawn canvas, for in-canvas coordinates. -/
theorem sample_drawGrid (w h s r px py : Int) (hs : 0 < s) (hr : 0 ≤ r)
    (h1 : 0 ≤ px) (h2 : px < w) (h3 : 0 ≤ py) (h4 : py < h) :
    (sample (drawGrid w h s r) px py = 255 ↔ onSomeDot w h s r px py) ∧
    (¬ onSomeDot w h s r px py → sample (drawGrid w h s r) px py = 0) := by
  rw [drawGrid_eq_canvasOfB]
  simp only [sample_canvasOfB w h _ px py h1 h2 h3 h4]
  have hcast : ((px.toNat : Int), (py.toNat : Int)) = (px, py) := by
    rw [Prod.mk.injEq]
    exact ⟨Int.toNat_of_nonneg h1, Int.toNat_of_nonneg h3⟩
  rw [hcast]
  have hiff := mem_writeList_iff w h s r px py hs hr h1 h2 h3 h4
  by_cases hmem : (px, py) ∈ writeList w h s r
  · rw [if_pos (decide_eq_true hmem)]
    constructor
    · exact ⟨fun _ => hiff.mp hmem, fun _ => rfl⟩
    · intro hno
      exact absurd (hiff.mp hmem) hno
  · rw [if_neg (by simpa using hmem)]
    have hno2 : ¬ onSomeDot w h s r px py := fun hc => hmem (hiff.mpr hc)
    constructor
    · constructor
      · intro h0
        exact absurd h0 (by omega)
      · intro hc
        exact absurd hc hno2
    · intro _
      rfl

/-! ## Counting white samples -/

theorem ceil_div_succ (n k : Nat) (hk : 0 < k) :
    (n + k) / k = (n + k - 1) / k + if k ∣ n then 1 else 0 := by
  by_cases hd : k ∣ n
  · rw [if_pos hd]
    obtain ⟨q, rfl⟩ := hd
    have hL : (k * q + k) / k = q + 1 := by
      have h2 : k * q + k = k * (q + 1) := by ring
      rw [h2, Nat.mul_div_cancel_left _ hk]
    have hR : (k * q + k - 1) / k = q := by
      have h4 : k * q + k - 1 = (k - 1) + k * q := by
        generalize k * q = A
        omega
      rw [h4, Nat.add_mul_div_left _ _ hk,
        Nat.div_eq_of_lt (show k - 1 < k by omega)]
      simp
    rw [hL, hR]
  · rw [if_neg hd]
    have h5 : n % k ≠ 0 := fun hc => hd (Nat.dvd_of_mod_eq_zero hc)
    have hq := Nat.div_add_mod n k
    have ht2 : n % k < k := Nat.mod_lt n hk
    have e1 : n + k = (n % k) + k * (n / k + 1) := by
      rw [Nat.mul_succ]
      set A := k * (n / k) with hA
      omega
    have e2 : n + k - 1 = (n % k - 1) + k * (n / k + 1) := by
      rw [Nat.mul_succ]
      set A := k * (n / k) with hA
      omega
    rw [e2, e1, Nat.add_mul_div_left _ _ hk, Nat.add_mul_div_left _ _ hk,
      Nat.div_eq_of_lt (by omega : n % k - 1 < k), Nat.div_eq_of_lt ht2]
    simp

theorem countP_dvd_range (k n : Nat) (hk : 0 < k) :
    (List.range n).countP (fun x => decide (k ∣ x)) = (n + k - 1) / k := by
  induction n with
  | zero =>
    rw [List.range_zero, List.countP_nil]
    exact (Nat.div_eq_of_lt (by omega)).symm
  | succ n ih =>
    rw [List.range_succ, List.countP_append, ih]
    have h1 : n + 1 + k - 1 = n + k := by omega
    rw [h1, ceil_div_succ n k hk]
    congr 1
    rw [List.countP_cons, List.countP_nil]
    by_cases hd : k ∣ n
    · simp [hd]
    · simp [hd]

theorem sum_map_ite {α : Type _} (l : List α) (p : α → Bool) (A : Nat) :
    (l.map (fun a => if p a then A else 0)).sum = A * l.countP p := by
  induction l with
  | nil => simp
  | cons a t ih =>
    rw [List.map_cons, List.sum_cons, ih, List.countP_cons]
    by_cases hp : p a = true
    · simp only [hp, if_pos rfl, if_true]
      ring
    · simp [hp]

/-- With radius 0 the written coordinates are exactly the grid points. -/
theorem mem_writeList_radius_zero (w h s px py : Int) (hs : 0 < s)
    (h1 : 0 ≤ px) (h2 : px < w) (h3 : 0 ≤ py) (h4 : py < h) :
    (px, py) ∈ writeList w h s 0 ↔ s ∣ px ∧ s ∣ py := by
  rw [mem_writeList_iff w h s 0 px py hs le_rfl h1 h2 h3 h4]
  unfold onSomeDot
  constructor
  · rintro ⟨cx, cy, hcx, hcx0, hcxw, hcy, hcy0, hcyh, hdist⟩
    have h0x : (px - cx) * (px - cx) = 0 := by
      nlinarith [mul_self_nonneg (px - cx), mul_self_nonneg (py - cy)]
    have h0y : (py - cy) * (py - cy) = 0 := by
      nlinarith [mul_self_nonneg (px - cx), mul_self_nonneg (py - cy)]
    have hex : px = cx := by
      have := mul_self_eq_zero.mp h0x
      omega
    have hey : py = cy := by
      have := mul_self_eq_zero.mp h0y
      omega
    exact ⟨hex ▸ hcx, hey ▸ hcy⟩
  · rintro ⟨ha, hb⟩
    exact ⟨px, py, ha, h1, h2, hb, h3, h4, by simp⟩

theorem toNat_ceil_div (w s : Int) (hw : 0 < w) (hs : 0 < s) :
    ((w + s - 1) / s).toNat = (w.toNat + s.toNat - 1) / s.toNat := by
  have h1 : (w + s - 1) / s
      = ((w.toNat + s.toNat - 1 : Nat) : Int) / ((s.toNat : Nat) : Int) := by
    congr 1
    · omega
    · omega
  rw [h1, ← Int.natCast_div, Int.toNat_natCast]

theorem sum_map_ite_prop {α : Type _} (l : List α) (P : α → Prop)
    [DecidablePred P] (A : Nat) :
    (l.map (fun a => if P a then A else 0)).sum
      = A * l.countP (fun a => decide (P a)) := by
  induction l with
  | nil => simp
  | cons a t ih =>
    rw [List.map_cons, List.sum_cons, ih, List.countP_cons]
    by_cases hp : P a
    · rw [if_pos hp, if_pos (by simp [hp] : decide (P a) = true)]
      ring
    · rw [if_neg hp, if_neg (by simp [hp] : ¬ decide (P a) = true)]
      ring

/-- Number of white samples drawn with radius 0: one per grid point. -/
theorem countWhite_drawGrid_zero (w h s : Int) (hw : 0 < w) (hh : 0 < h)
    (hs : 0 < s) :
    countWhite (drawGrid w h s 0)
      = ((w + s - 1) / s).toNat * ((h + s - 1) / s).toNat := by
  simp only [drawGrid_eq_canvasOfB, countWhite_canvasOfB]
  have hsN : 0 < s.toNat := by omega
  have hrow : ∀ y ∈ List.range h.toNat,
      (List.range w.toNat).countP
          (fun x : Nat => decide (((x : Int), (y : Int)) ∈ writeList w h s 0))
        = (if s.toNat ∣ y then
            (List.range w.toNat).countP (fun x : Nat => decide (s.toNat ∣ x))
          else 0) := by
    intro y hy
    rw [List.mem_range] at hy
    by_cases hdy : s.toNat ∣ y
    · rw [if_pos hdy]
      apply List.countP_congr
      intro x hx
      rw [List.mem_range] at hx
      simp only [decide_eq_true_eq]
      rw [mem_writeList_radius_zero w h s x y hs (Int.natCast_nonneg x)
        (by omega) (Int.natCast_nonneg y) (by omega)]
      constructor
      · rintro ⟨hax, -⟩
        have h9 : ((s.toNat : Nat) : Int) ∣ ((x : Nat) : Int) := by
          rwa [Int.toNat_of_nonneg hs.le]
        exact Int.natCast_dvd_natCast.mp h9
      · intro hax
        constructor
        · have h9 : ((s.toNat : Nat) : Int) ∣ ((x : Nat) : Int) :=
            Int.natCast_dvd_natCast.mpr hax
          rwa [Int.toNat_of_nonneg hs.le] at h9
        · have h9 : ((s.toNat : Nat) : Int) ∣ ((y : Nat) : Int) :=
            Int.natCast_dvd_natCast.mpr hdy
          rwa [Int.toNat_of_nonneg hs.le] at h9
    · rw [if_neg hdy]
      rw [List.countP_eq_zero]
      intro x hx
      rw [List.mem_range] at hx
      simp only [decide_eq_true_eq]
      intro hmem
      apply hdy
      have h9 := (mem_writeList_radius_zero w h s x y hs
        (Int.natCast_nonneg x) (by omega) (Int.natCast_nonneg y)
        (by omega)).mp hmem
      have h10 : ((s.toNat : Nat) : Int) ∣ ((y : Nat) : Int) := by
        rw [Int.toNat_of_nonneg hs.le]
        exact h9.2
      exact Int.natCast_dvd_natCast.mp h10
  rw [List.map_congr_left hrow,
    sum_map_ite_prop (List.range h.toNat) (fun y => s.toNat ∣ y) _,
    countP_dvd_range s.toNat h.toNat hsN, countP_dvd_range s.toNat w.toNat hsN,
    toNat_ceil_div w s hw hs, toNat_ceil_div h s hh hs]

/-! ## Shape preservation -/

theorem numSamples_set_row (img : Canvas) (i j : Nat) :
    numSamples (img.set i ((img.getD i []).set j 255)) = numSamples img := by
  induction img generalizing i with
  | nil => rfl
  | cons hd tl ih =>
    cases i with
    | zero =>
      show numSamples ((hd.set j 255) :: tl) = numSamples (hd :: tl)
      unfold numSamples
      rw [List.map_cons, List.map_cons, List.sum_cons, List.sum_cons,
        List.length_set]
    | succ n =>
      show numSamples (hd :: tl.set n ((tl.getD n []).set j 255))
          = numSamples (hd :: tl)
      unfold numSamples
      rw [List.map_cons, List.map_cons, List.sum_cons, List.sum_cons]
      exact congrArg (hd.length + ·) (ih n)

theorem numSamples_setPixel (img : Canvas) (yy xx : Int) :
    numSamples (setPixel img yy xx) = numSamples img :=
  numSamples_set_row img yy.toNat xx.toNat

theorem length_setPixel (img : Canvas) (yy xx : Int) :
    (setPixel img yy xx).length = img.length :=
  List.length_set img yy.toNat _

theorem numSamples_stampStep (w h r : Int) (img : Canvas)
    (q : Int × Int × Int × Int) :
    numSamples (stampStep w h r img q) = numSamples img := by
  obtain ⟨y, x, dy, dx⟩ := q
  simp only [stampStep]
  split_ifs with h1 h2
  · exact numSamples_setPixel img (y + dy) (x + dx)
  · rfl
  · rfl

theorem length_stampStep (w h r : Int) (img : Canvas)
    (q : Int × Int × Int × Int) :
    (stampStep w h r img q).length = img.length := by
  obtain ⟨y, x, dy, dx⟩ := q
  simp only [stampStep]
  split_ifs with h1 h2
  · exact length_setPixel img (y + dy) (x + dx)
  · rfl
  · rfl

theorem numSamples_foldl_stampStep (w h r : Int)
    (quads : List (Int × Int × Int × Int)) (img : Canvas) :
    numSamples (List.foldl (stampStep w h r) img quads) = numSamples img := by
  induction quads generalizing img with
  | nil => rfl
  | cons q t ih =>
    rw [List.foldl_cons, ih (stampStep w h r img q),
      numSamples_stampStep w h r img q]

theorem length_foldl_stampStep (w h r : Int)
    (quads : List (Int × Int × Int × Int)) (img : Canvas) :
    (List.foldl (stampStep w h r) img quads).length = img.length := by
  induction quads generalizing img with
  | nil => rfl
  | cons q t ih =>
    rw [List.foldl_cons, ih (stampStep w h r img q),
      length_stampStep w h r img q]

theorem numSamples_zerosCanvas (w h : Int) :
    numSamples (zerosCanvas w h) = w.toNat * h.toNat := by
  unfold numSamples zerosCanvas
  rw [List.map_replicate, List.length_replicate, List.sum_replicate,
    smul_eq_mul, Nat.mul_comm]

theorem isAllZero_zerosCanvas (w h : Int) :
    isAllZero (zerosCanvas w h) = true := by
  unfold isAllZero zerosCanvas
  rw [List.all_eq_true]
  intro row hrow
  rw [List.mem_replicate] at hrow
  obtain ⟨-, rfl⟩ := hrow
  rw [List.all_eq_true]
  intro v hv
  rw [List.mem_replicate] at hv
  obtain ⟨-, rfl⟩ := hv
  rfl

/-! ## Degenerate radius -/

theorem flatMap_nil_fun {α β : Type _} (l : List α) :
    (l.flatMap (fun _ => ([] : List β))) = [] := by
  induction l with
  | nil => rfl
  | cons a t ih => rw [List.flatMap_cons, ih, List.nil_append]

theorem stampQuads_neg_radius (w h s r : Int) (hr : r < 0) :
    stampQuads w h s r = [] := by
  unfold stampQuads
  have hside : pyRange (-r) (r + 1) 1 = [] := by
    unfold pyRange pyRangeLen
    rw [if_pos Int.one_pos]
    have h0 : (r + 1 - -r + 1 - 1) / 1 = 2 * r + 1 := by omega
    have h1 : (2 * r + 1).toNat = 0 := by omega
    rw [h0, h1, List.range_zero, List.map_nil]
  rw [hside]
  simp only [List.flatMap_nil, flatMap_nil_fun]

theorem drawGrid_neg_radius (w h s r : Int) (hr : r < 0) :
    drawGrid w h s r = zerosCanvas w h := by
  rw [drawGrid_eq_foldl_quads, stampQuads_neg_radius w h s r hr]
  rfl

/-! ## Order independence of dot stamping -/

theorem getD_set_self {α : Type _} (l : List α) (i : Nat) (a d : α)
    (hi : i < l.length) :
    (l.set i a).getD i d = a := by
  rw [List.getD_eq_getElem?_getD, List.getElem?_set]
  simp [hi]

theorem getD_set_ne {α : Type _} (l : List α) (i i2 : Nat) (a d : α)
    (hne : i ≠ i2) :
    (l.set i a).getD i2 d = l.getD i2 d := by
  rw [List.getD_eq_getElem?_getD, List.getElem?_set, if_neg hne,
    ← List.getD_eq_getElem?_getD]

theorem setPixel_comm (img : Canvas) (y1 x1 y2 x2 : Int) :
    setPixel (setPixel img y1 x1) y2 x2
      = setPixel (setPixel img y2 x2) y1 x1 := by
  unfold setPixel
  by_cases hi : y1.toNat = y2.toNat
  · rw [hi]
    by_cases hlen : y2.toNat < img.length
    · rw [getD_set_self _ _ _ _ hlen, getD_set_self _ _ _ _ hlen,
        List.set_set, List.set_set]
      by_cases hj : x1.toNat = x2.toNat
      · rw [hj]
      · rw [List.set_comm _ _ _ hj]
    · push_neg at hlen
      simp only [List.set_eq_of_length_le hlen]
  · rw [getD_set_ne _ _ _ _ _ hi, getD_set_ne _ _ _ _ _ (Ne.symm hi),
      List.set_comm _ _ _ hi]

theorem foldl_setPixel_single_comm (L : List (Int × Int)) (p : Int × Int)
    (z : Canvas) :
    List.foldl (fun im q => setPixel im q.2 q.1) (setPixel z p.2 p.1) L
      = setPixel (List.foldl (fun im q => setPixel im q.2 q.1) z L) p.2 p.1 := by
  induction L generalizing z with
  | nil => rfl
  | cons a t ih =>
    rw [List.foldl_cons, List.foldl_cons, setPixel_comm z p.2 p.1 a.2 a.1]
    exact ih (setPixel z a.2 a.1)

theorem foldl_setPixel_batch_comm (L1 L2 : List (Int × Int)) (z : Canvas) :
    List.foldl (fun im q => setPixel im q.2 q.1)
        (List.foldl (fun im q => setPixel im q.2 q.1) z L1) L2
      = List.foldl (fun im q => setPixel im q.2 q.1)
          (List.foldl (fun im q => setPixel im q.2 q.1) z L2) L1 := by
  induction L2 generalizing z with
  | nil => rfl
  | cons p t ih =>
    rw [List.foldl_cons, List.foldl_cons,
      ← foldl_setPixel_single_comm L1 p z]
    exact ih (setPixel z p.2 p.1)

theorem stampDot_eq_foldl (w h r : Int) (img : Canvas) (d : Int × Int) :
    stampDot w h r img d
      = List.foldl (stampStep w h r) img (dotQuads r d) := by
  unfold stampDot dotQuads
  simp only [foldl_flatMap, List.foldl_map]

theorem drawGrid_eq_foldl_dots (w h s r : Int) :
    drawGrid w h s r
      = List.foldl (stampDot w h r) (zerosCanvas w h) (dotList w h s) := by
  unfold drawGrid dotList stampDot
  simp only [foldl_flatMap, List.foldl_map]

theorem stampDot_comm (w h r : Int) (z : Canvas) (d1 d2 : Int × Int) :
    stampDot w h r (stampDot w h r z d1) d2
      = stampDot w h r (stampDot w h r z d2) d1 := by
  rw [stampDot_eq_foldl, stampDot_eq_foldl, stampDot_eq_foldl,
    stampDot_eq_foldl, foldl_stampStep_eq_writes, foldl_stampStep_eq_writes,
    foldl_stampStep_eq_writes, foldl_stampStep_eq_writes]
  exact foldl_setPixel_batch_comm _ _ _

/-- Stamping the dots in any permutation of the grid order produces the
same canvas as the original iteration order. -/
theorem foldl_stampDot_perm (w h s r : Int) (l : List (Int × Int))
    (hperm : (dotList w h s).Perm l) :
    List.foldl (stampDot w h r) (zerosCanvas w h) l = drawGrid w h s r := by
  rw [drawGrid_eq_foldl_dots]
  exact (hperm.foldl_eq' (fun a ha b hb z => stampDot_comm w h r z a b)
    (zerosCanvas w h)).symm

/-! ## The claims -/

/-- Claim C1: for every valid input (width > 0, height > 0, spacing > 0,
radius >= 0), an in-canvas sample (px, py) of the canvas returned by the
rasterizer is 255 if and only if there is a grid center (cx, cy) with cx a
multiple of spacing in [0, width), cy a multiple of spacing in [0, height),
and offsets dx = px - cx, dy = py - cy with dx*dx + dy*dy <= radius*radius;
every other sample is 0. -/
theorem claim_C1 (w h s r px py : Int) (hw : 0 < w) (hh : 0 < h)
    (hs : 0 < s) (hr : 0 ≤ r) (hpx0 : 0 ≤ px) (hpxw : px < w)
    (hpy0 : 0 ≤ py) (hpyh : py < h) :
    ∃ img, create_calibration_image w h s r = Except.ok img ∧
      (sample img px py = 255 ↔ onSomeDot w h s r px py) ∧
      (¬ onSomeDot w h s r px py → sample img px py = 0) :=
  ⟨drawGrid w h s r, create_ok w h s r hw.le hh.le (ne_of_gt hs),
    (sample_drawGrid w h s r px py hs hr hpx0 hpxw hpy0 hpyh).1,
    (sample_drawGrid w h s r px py hs hr hpx0 hpxw hpy0 hpyh).2⟩

/-- Claim C1, witness at width 3, height 3, spacing 2, radius 1,
sample (1, 0). -/
theorem claim_C1_witness :
    ∃ img, create_calibration_image 3 3 2 1 = Except.ok img ∧
      (sample img 1 0 = 255 ↔ onSomeDot 3 3 2 1 1 0) ∧
      (¬ onSomeDot 3 3 2 1 1 0 → sample img 1 0 = 0) :=
  claim_C1 3 3 2 1 1 0 (by decide) (by decide) (by decide) (by decide)
    (by decide) (by decide) (by decide) (by decide)

/-- Claim C2, counterexample: rasterize(width=0, height=10, spacing=5,
radius=1) does not fail at all — it returns a canvas of 10 empty rows —
so it does not fail with InvalidDimension as the claim states. -/
theorem claim_C2_counterexample :
    create_calibration_image 0 10 5 1 = Except.ok (List.replicate 10 []) := by
  decide

/-- Claim C2, amended: the rasterizer has no InvalidDimension,
InvalidSpacing or InvalidRadius validation; it fails (with a ValueError of
the Python runtime, raised before any sample is written) exactly when
width < 0, height < 0 or spacing = 0.  In particular width = 0 returns an
empty canvas of 10 rows rather than failing, and spacing = 0 raises the
ValueError of range() for a zero step. -/
theorem claim_C2_amended (w h s r : Int) :
    ((∃ e, create_calibration_image w h s r = Except.error e) ↔
      (w < 0 ∨ h < 0 ∨ s = 0)) ∧
    create_calibration_image 0 10 5 1 = Except.ok (List.replicate 10 []) ∧
    create_calibration_image 10 10 0 1
      = Except.error (PyErr.valueError "range arg 3 must not be zero") := by
  refine ⟨?_, by decide, by decide⟩
  constructor
  · rintro ⟨e, he⟩
    unfold create_calibration_image at he
    by_cases h1 : w < 0 ∨ h < 0
    · omega
    · rw [if_neg h1] at he
      by_cases h2 : s = 0
      · omega
      · rw [if_neg h2] at he
        exact Except.noConfusion he
  · intro hc
    unfold create_calibration_image
    by_cases h1 : w < 0 ∨ h < 0
    · rw [if_pos h1]
      exact ⟨_, rfl⟩
    · have h2 : s = 0 := by omega
      rw [if_neg h1, if_pos h2]
      exact ⟨_, rfl⟩

/-- Claim C3, counterexample: rasterize(30, 30, 100, 1) yields the clipped
single dot at the origin with exactly 3 white samples, not 5: the
neighbors (-1, 0) and (0, -1) of the center fall outside the canvas. -/
theorem claim_C3_counterexample :
    create_calibration_image 30 30 100 1 = Except.ok expected30 ∧
    countWhite expected30 = 3 ∧ ¬ countWhite expected30 = 5 := by
  refine ⟨by decide, by decide, by decide⟩

/-- Claim C3, amended: rasterize(30, 30, 100, 1) yields a canvas whose only
non-zero samples form the single filled disk of radius 1 centered at
(0, 0) clipped to the canvas — exactly 3 white samples: the center (0, 0)
and its in-bounds axis neighbors (1, 0) and (0, 1) — every other sample
0. -/
theorem claim_C3_amended :
    create_calibration_image 30 30 100 1 = Except.ok expected30 ∧
    countWhite expected30 = 3 ∧ isBinary expected30 = true ∧
    sample expected30 0 0 = 255 ∧ sample expected30 1 0 = 255 ∧
    sample expected30 0 1 = 255 := by
  refine ⟨by decide, by decide, by decide, by decide, by decide, by decide⟩

/-- Claim C4: for every valid input the returned canvas has exactly
width * height samples, all 0 or 255; the canvas starts all-zero and its
dimensions (sample count and row count) are unchanged by any sequence of
drawing-loop iterations, hence never change during rasterization. -/
theorem claim_C4 (w h s r : Int) (quads : List (Int × Int × Int × Int))
    (hw : 0 < w) (hh : 0 < h) (hs : 0 < s) (hr : 0 ≤ r) :
    (∃ img, create_calibration_image w h s r = Except.ok img ∧
      numSamples img = w.toNat * h.toNat ∧ isBinary img = true) ∧
    isAllZero (zerosCanvas w h) = true ∧
    numSamples (zerosCanvas w h) = w.toNat * h.toNat ∧
    numSamples (List.foldl (stampStep w h r) (zerosCanvas w h) quads)
      = w.toNat * h.toNat ∧
    (List.foldl (stampStep w h r) (zerosCanvas w h) quads).length
      = h.toNat := by
  refine ⟨⟨drawGrid w h s r,
      create_ok w h s r hw.le hh.le (ne_of_gt hs), ?_, ?_⟩,
    isAllZero_zerosCanvas w h, numSamples_zerosCanvas w h, ?_, ?_⟩
  · rw [drawGrid_eq_canvasOfB]
    exact numSamples_canvasOfB w h _
  · rw [drawGrid_eq_canvasOfB]
    exact isBinary_canvasOfB w h _
  · rw [numSamples_foldl_stampStep, numSamples_zerosCanvas]
  · rw [length_foldl_stampStep]
    unfold zerosCanvas
    exact List.length_replicate _ _

/-- Claim C4, witness at width 2, height 3, spacing 1, radius 0 with a
one-step iteration list. -/
theorem claim_C4_witness :
    (∃ img, create_calibration_image 2 3 1 0 = Except.ok img ∧
      numSamples img = (2 : Int).toNat * (3 : Int).toNat ∧
      isBinary img = true) ∧
    isAllZero (zerosCanvas 2 3) = true ∧
    numSamples (zerosCanvas 2 3) = (2 : Int).toNat * (3 : Int).toNat ∧
    numSamples (List.foldl (stampStep 2 3 0) (zerosCanvas 2 3)
        [(0, 0, 0, 0)]) = (2 : Int).toNat * (3 : Int).toNat ∧
    (List.foldl (stampStep 2 3 0) (zerosCanvas 2 3)
        [(0, 0, 0, 0)]).length = (3 : Int).toNat :=
  claim_C4 2 3 1 0 [(0, 0, 0, 0)] (by decide) (by decide) (by decide)
    (by decide)

/-- Claim C5: the drawing loops never write outside the canvas — every
coordinate of the write trace is in bounds, clipping silently skips the
rest — and the in-canvas part of the disk of the dot centered at (0, 0)
is still drawn: any in-canvas (px, py) with px*px + py*py <= r*r is 255. -/
theorem claim_C5 (w h s r px py : Int) (hw : 0 < w) (hh : 0 < h)
    (hs : 0 < s) (hr : 0 ≤ r) (hpx0 : 0 ≤ px) (hpxw : px < w)
    (hpy0 : 0 ≤ py) (hpyh : py < h) (hdisk : px * px + py * py ≤ r * r) :
    (∀ p ∈ writeList w h s r, 0 ≤ p.1 ∧ p.1 < w ∧ 0 ≤ p.2 ∧ p.2 < h) ∧
    (∃ img, create_calibration_image w h s r = Except.ok img ∧
      sample img px py = 255) := by
  refine ⟨fun p hp => writeList_bounds w h s r p hp,
    drawGrid w h s r, create_ok w h s r hw.le hh.le (ne_of_gt hs), ?_⟩
  apply (sample_drawGrid w h s r px py hs hr hpx0 hpxw hpy0 hpyh).1.mpr
  exact ⟨0, 0, dvd_zero s, le_refl 0, hw, dvd_zero s, le_refl 0, hh,
    by simpa using hdisk⟩

/-- Claim C5, witness: width 3, height 3, spacing 5, radius 2 — the dot at
(0, 0) extends past the canvas on all negative sides — checked at the
in-canvas disk sample (1, 1). -/
theorem claim_C5_witness :
    (∀ p ∈ writeList 3 3 5 2, 0 ≤ p.1 ∧ p.1 < 3 ∧ 0 ≤ p.2 ∧ p.2 < 3) ∧
    (∃ img, create_calibration_image 3 3 5 2 = Except.ok img ∧
      sample img 1 1 = 255) :=
  claim_C5 3 3 5 2 1 1 (by decide) (by decide) (by decide) (by decide)
    (by decide) (by decide) (by decide) (by decide) (by decide)

/-- Claim C6: with radius 0, exactly the grid-aligned in-canvas samples
are 255 and all other samples are 0 (every sample is 0 or 255, and each
off-grid sample reads 0), and the number of white samples is
ceil(width/spacing) * ceil(height/spacing), written with floor division as
((width + spacing - 1) / spacing) * ((height + spacing - 1) / spacing). -/
theorem claim_C6 (w h s : Int) (hw : 0 < w) (hh : 0 < h) (hs : 0 < s) :
    ∃ img, create_calibration_image w h s 0 = Except.ok img ∧
      (∀ px py : Int, 0 ≤ px → px < w → 0 ≤ py → py < h →
        (sample img px py = 255 ↔ px % s = 0 ∧ py % s = 0) ∧
        (¬ (px % s = 0 ∧ py % s = 0) → sample img px py = 0)) ∧
      isBinary img = true ∧
      countWhite img = ((w + s - 1) / s).toNat * ((h + s - 1) / s).toNat := by
  refine ⟨drawGrid w h s 0, create_ok w h s 0 hw.le hh.le (ne_of_gt hs), ?_,
    ?_, countWhite_drawGrid_zero w h s hw hh hs⟩
  · intro px py h1 h2 h3 h4
    have hsam := sample_drawGrid w h s 0 px py hs le_rfl h1 h2 h3 h4
    have hiff : onSomeDot w h s 0 px py ↔ (px % s = 0 ∧ py % s = 0) :=
      ((mem_writeList_iff w h s 0 px py hs le_rfl h1 h2 h3 h4).symm.trans
        (mem_writeList_radius_zero w h s px py hs h1 h2 h3 h4)).trans
        (and_congr Int.dvd_iff_emod_eq_zero Int.dvd_iff_emod_eq_zero)
    refine ⟨hsam.1.trans hiff, ?_⟩
    intro hno
    exact hsam.2 (fun hc => hno (hiff.mp hc))
  · rw [drawGrid_eq_canvasOfB]
    exact isBinary_canvasOfB w h _

/-- Claim C6, witness at width 5, height 5, spacing 2: 9 white samples,
off-grid samples 0. -/
theorem claim_C6_witness :
    ∃ img, create_calibration_image 5 5 2 0 = Except.ok img ∧
      (∀ px py : Int, 0 ≤ px → px < 5 → 0 ≤ py → py < 5 →
        (sample img px py = 255 ↔ px % 2 = 0 ∧ py % 2 = 0) ∧
        (¬ (px % 2 = 0 ∧ py % 2 = 0) → sample img px py = 0)) ∧
      isBinary img = true ∧
      countWhite img
        = ((5 + 2 - 1) / 2 : Int).toNat * ((5 + 2 - 1) / 2 : Int).toNat :=
  claim_C6 5 5 2 (by decide) (by decide) (by decide)

/-- Claim C7: every in-canvas grid point (x a multiple of spacing,
y a multiple of spacing) is a 255 sample of the returned canvas, for every
radius >= 0. -/
theorem claim_C7 (w h s r x y : Int) (hw : 0 < w) (hh : 0 < h) (hs : 0 < s)
    (hr : 0 ≤ r) (hx : x % s = 0) (hx0 : 0 ≤ x) (hxw : x < w)
    (hy : y % s = 0) (hy0 : 0 ≤ y) (hyh : y < h) :
    ∃ img, create_calibration_image w h s r = Except.ok img ∧
      sample img x y = 255 := by
  refine ⟨drawGrid w h s r, create_ok w h s r hw.le hh.le (ne_of_gt hs), ?_⟩
  apply (sample_drawGrid w h s r x y hs hr hx0 hxw hy0 hyh).1.mpr
  refine ⟨x, y, Int.dvd_of_emod_eq_zero hx, hx0, hxw,
    Int.dvd_of_emod_eq_zero hy, hy0, hyh, ?_⟩
  simpa using mul_self_nonneg r

/-- Claim C7, witness at width 5, height 5, spacing 2, radius 1,
grid point (2, 0). -/
theorem claim_C7_witness :
    ∃ img, create_calibration_image 5 5 2 1 = Except.ok img ∧
      sample img 2 0 = 255 :=
  claim_C7 5 5 2 1 2 0 (by decide) (by decide) (by decide) (by decide)
    (by decide) (by decide) (by decide) (by decide) (by decide) (by decide)

/-- Claim C8: the rasterizer is deterministic — two calls with identical
valid inputs return the same (bit-identical) successful canvas. -/
theorem claim_C8 (w1 h1 s1 r1 w2 h2 s2 r2 : Int) (hw : 0 < w1)
    (hh : 0 < h1) (hs : 0 < s1) (hr : 0 ≤ r1) (he1 : w1 = w2)
    (he2 : h1 = h2) (he3 : s1 = s2) (he4 : r1 = r2) :
    create_calibration_image w1 h1 s1 r1
        = create_calibration_image w2 h2 s2 r2 ∧
    ∃ img, create_calibration_image w1 h1 s1 r1 = Except.ok img := by
  subst he1
  subst he2
  subst he3
  subst he4
  exact ⟨rfl, drawGrid w1 h1 s1 r1,
    create_ok w1 h1 s1 r1 hw.le hh.le (ne_of_gt hs)⟩

/-- Claim C8, witness at input (4, 4, 2, 1) twice. -/
theorem claim_C8_witness :
    create_calibration_image 4 4 2 1 = create_calibration_image 4 4 2 1 ∧
    ∃ img, create_calibration_image 4 4 2 1 = Except.ok img :=
  claim_C8 4 4 2 1 4 4 2 1 (by decide) (by decide) (by decide) (by decide)
    rfl rfl rfl rfl

/-- Claim C9: stamping the dots of the grid in any permutation of the
iteration order yields the same canvas as the original order — setting a
sample to 255 is idempotent and writes commute — so the output is a pure
function of the inputs even where dots overlap. -/
theorem claim_C9 (w h s r : Int) (l : List (Int × Int)) (hw : 0 < w)
    (hh : 0 < h) (hs : 0 < s) (hr : 0 ≤ r)
    (hperm : (dotList w h s).Perm l) :
    List.foldl (stampDot w h r) (zerosCanvas w h) l = drawGrid w h s r ∧
    create_calibration_image w h s r = Except.ok (drawGrid w h s r) :=
  ⟨foldl_stampDot_perm w h s r l hperm,
    create_ok w h s r hw.le hh.le (ne_of_gt hs)⟩

/-- Claim C9, witness: the four dots of the 2 by 2 grid with spacing 1,
stamped in reversed order. -/
theorem claim_C9_witness :
    List.foldl (stampDot 2 2 0) (zerosCanvas 2 2)
        [(1, 1), (1, 0), (0, 1), (0, 0)] = drawGrid 2 2 1 0 ∧
    create_calibration_image 2 2 1 0 = Except.ok (drawGrid 2 2 1 0) :=
  claim_C9 2 2 1 0 [(1, 1), (1, 0), (0, 1), (0, 0)] (by decide) (by decide)
    (by decide) (by decide) (by decide)

/-- Claim C10: for radius < 0 (and otherwise valid inputs) the rasterizer
raises no error and returns the all-zero canvas of width * height samples:
the neighborhood loops are empty, so nothing is ever set to 255. -/
theorem claim_C10 (w h s r : Int) (hw : 0 < w) (hh : 0 < h) (hs : 0 < s)
    (hr : r < 0) :
    create_calibration_image w h s r = Except.ok (zerosCanvas w h) ∧
    isAllZero (zerosCanvas w h) = true ∧
    numSamples (zerosCanvas w h) = w.toNat * h.toNat := by
  refine ⟨?_, isAllZero_zerosCanvas w h, numSamples_zerosCanvas w h⟩
  rw [create_ok w h s r hw.le hh.le (ne_of_gt hs),
    drawGrid_neg_radius w h s r hr]

/-- Claim C10, witness at width 3, height 4, spacing 2, radius -1. -/
theorem claim_C10_witness :
    create_calibration_image 3 4 2 (-1) = Except.ok (zerosCanvas 3 4) ∧
    isAllZero (zerosCanvas 3 4) = true ∧
    numSamples (zerosCanvas 3 4) = (3 : Int).toNat * (4 : Int).toNat :=
  claim_C10 3 4 2 (-1) (by decide) (by decide) (by decide) (by decide)
